import Mathlib

/-
Shallow embedding of the Fresnel wavefront-propagation module
(`poppy/fresnel.py`): the Gaussian-beam bookkeeping of the `Wavefront`
class, the three Fresnel propagation kernels (`ptp`, `wts`, `stw`),
the regime-dispatch routine `propagate_fresnel`, and the thin-lens
interaction `apply_optic`, together with the `QuadPhase` and
`GaussianLens` optics.

Modelling conventions:
 - real-valued (`float`) quantities (all carried in meters by the module)
   become `ℝ`, with `np.pi` as `Real.pi`;
 - the complex field array of linear dimension `n` becomes
   `Fin n → Fin n → ℂ`;
 - `np.inf` radii of curvature become `Option ℝ` (`none` = infinity,
   with reciprocal `1/∞ = 0`, matching IEEE `1.0/inf = 0.0`);
 - the external FFT execution backend (`np.fft` / `pyfftw`, an external
   collaborator of the module) is a parameter `FFTBackend`; the concrete
   value of `np.fft.fft2` on a 2×2 grid, where the transform kernel is
   `exp(-2*pi*i*j*k/2) = (-1)^(j*k)`, is provided as the instance `np2`;
 - the append-only `history` log of human-readable strings is modelled by
   structured entries recording the operation and its argument.
-/

open Real

open scoped Classical

noncomputable section

namespace Fresnel

/-- Plane-type constants `_PUPIL`, `_IMAGE`, `_DETECTOR`, `_ROTATION`,
`_INTERMED` imported from `poppy_core`. -/
inductive PlaneType
  | pupil | image | detector | rotation | intermed
deriving DecidableEq

/-- Entries of the `self.history` append-only log.  The source appends
human-readable strings; they are modelled as structured entries recording
the kernel applied and its propagation distance. -/
inductive HistEntry
  | ptpStep (dz : ℝ)
  | wtsStep (dz : ℝ)
  | stwStep (dz : ℝ)

/-- `QuadPhase.__init__` (fresnel.py lines 48-63): quadratic phase factor,
storing the radius of curvature `z_m` (converted to meters) and the
reference wavelength (meters). -/
structure QuadPhase where
  z_m : ℝ
  reference_wavelength : ℝ

/-- `GaussianLens.__init__` (lines 107-128): stores the focal length `fl`
(converted to meters) and the optic's plane type (default `_INTERMED`). -/
structure GaussianLens where
  fl : ℝ
  planetype : PlaneType

/-- State of a `fresnel.Wavefront` of linear grid dimension `n`
(`self.n = self.shape[0]`, square grid).  Fields are those read and
written by the module: the immutable configuration (`wavelength`,
`oversample`, `force_fresnel`, `rayl_factor`), the Gaussian-beam
bookkeeping (`z`, `z_w0`, `w_0`, `spherical`, waist history), the base
wavefront state consumed from the superclass (`pixelscale`, `planetype`,
`history`), and the sampled complex field array `self.wavefront`. -/
structure Wavefront (n : ℕ) where
  wavelength : ℝ
  oversample : ℝ
  z : ℝ
  z_w0 : ℝ
  w_0 : ℝ
  pixelscale : ℝ
  spherical : Bool
  planetype : PlaneType
  force_fresnel : Bool
  rayl_factor : ℝ
  waists_z : List ℝ
  waists_w0 : List ℝ
  history : List HistEntry
  field : Fin n → Fin n → ℂ

variable {n : ℕ}

/-- External 2D FFT backend pair (`np.fft.fft2`/`ifft2` or the `pyfftw`
equivalents) selected by `poppy.conf.use_fftw`: an external collaborator.
`fwd` is the unnormalized forward transform and `inv` the backend inverse
carrying its own `1/(N*N)` normalization, so the backend contract is
`inv (fwd X) = X` together with linearity. -/
structure FFTBackend (n : ℕ) where
  fwd : (Fin n → Fin n → ℂ) → Fin n → Fin n → ℂ
  inv : (Fin n → Fin n → ℂ) → Fin n → Fin n → ℂ

/-- `Wavefront.fft` (lines 274-289): apply the backend forward transform and
divide by the linear grid dimension `self.shape[0]`. -/
def fftW (B : FFTBackend n) (s : Wavefront n) : Wavefront n :=
  { s with field := fun i j => B.fwd s.field i j / (n : ℂ) }

/-- `Wavefront.inv_fft` (lines 291-305): apply the backend inverse transform
and multiply by the linear grid dimension `self.shape[0]`. -/
def invFftW (B : FFTBackend n) (s : Wavefront n) : Wavefront n :=
  { s with field := fun i j => B.inv s.field i j * (n : ℂ) }

/-- `Wavefront.z_R` (lines 236-247): Rayleigh distance
`pi * w_0**2 / wavelen_m`. -/
def zR (s : Wavefront n) : ℝ := π * s.w_0 ^ 2 / s.wavelength

/-- `Wavefront.planar_range` (lines 506-521):
`np.abs(self.z_w0 - z) < self.z_R`. -/
def planarRange (s : Wavefront n) (z : ℝ) : Prop := |s.z_w0 - z| < zR s

/-- `Wavefront.R_c` (lines 307-314): radius of curvature at `z`; returns
`np.inf` (modelled `none`) exactly at the waist. -/
def R_c (s : Wavefront n) (z : ℝ) : Option ℝ :=
  if z - s.z_w0 = 0 then none
  else some ((z - s.z_w0) * (1 + (zR s / (z - s.z_w0)) ^ 2))

/-- `Wavefront.spot_radius` (lines 316-325):
`w_0 * sqrt(1 + ((z - z_w0)/z_R)**2)`. -/
def spotRadius (s : Wavefront n) (z : ℝ) : ℝ :=
  s.w_0 * Real.sqrt (1 + ((z - s.z_w0) / zR s) ^ 2)

/-- Reciprocal of a possibly-infinite quantity: `1.0/np.inf = 0.0`. -/
def invOpt : Option ℝ → ℝ
  | none => 0
  | some x => 1 / x

/-- `QuadPhase.getPhasor` (lines 65-83): `exp(i * k * rsqd / (2 * z_m))`
with `k = 2*pi/reference_wavelength` and `rsqd = x**2 + y**2` on the
wavefront's coordinate grid at its current pixel scale.
Modelled from the spec: the base-class `coordinates()` grid (an external
collaborator, "returns physical Y/X coordinate grids") is taken as the
centered grid `(index - n/2) * pixelscale`, the convention of the
in-source `fft_coords` (lines 327-348). -/
def quadPhasePhasor (n : ℕ) (q : QuadPhase) (pix : ℝ) (i j : Fin n) : ℂ :=
  let y : ℝ := ((i.val : ℝ) - (n : ℝ) / 2) * pix
  let x : ℝ := ((j.val : ℝ) - (n : ℝ) / 2) * pix
  let rsqd : ℝ := x ^ 2 + y ^ 2
  let k : ℝ := 2 * π / q.reference_wavelength
  Complex.exp (Complex.I * (k : ℂ) * (rsqd : ℂ) / (2 * (q.z_m : ℂ)))

/-- The statement `self *= QuadPhase(...)`: pointwise multiplication of the
field array by the optic's phasor (base-class multiply, spec section 2:
optics are "consumed by multiplication against a wavefront's field"). -/
def mulQuadPhase (s : Wavefront n) (q : QuadPhase) : Wavefront n :=
  { s with field := fun i j => s.field i j * quadPhasePhasor n q s.pixelscale i j }

/-- Index shift of `np.fft.fftshift`: `out[i] = in[(i + (n - n/2)) % n]`. -/
def shiftIdx [NeZero n] (i : Fin n) : Fin n :=
  ⟨(i.val + (n - n / 2)) % n, Nat.mod_lt _ (Nat.pos_of_ne_zero (NeZero.ne n))⟩

/-- `np.fft.fftshift` on a 2D array (both axes). -/
def fftshift2 [NeZero n] {α : Type} (X : Fin n → Fin n → α) : Fin n → Fin n → α :=
  fun i j => X (shiftIdx i) (shiftIdx j)

/-- `Wavefront.ptp` (lines 385-428): plane-to-plane propagation.  Skips
(no state change) when `np.abs(dz) < 1*u.Angstrom`, i.e. `1e-10` m.
Otherwise: build the frequency-shifted radial grid `rho` from the
`fft_coords` grid divided by `pixelscale*2*oversample`, the transfer
function `T = -1j*pi*wavelength*dz*rho`, then forward FFT, multiply by
`exp(T)`, inverse FFT, advance `z`, and log.  Pixel scale unchanged. -/
def ptp [NeZero n] (B : FFTBackend n) (s : Wavefront n) (dz : ℝ) : Wavefront n :=
  if |dz| < 1e-10 then s
  else
    let coord : Fin n → ℝ := fun j => ((j.val : ℝ) - (n : ℝ) / 2) * s.pixelscale
    let rho : Fin n → Fin n → ℝ :=
      fftshift2 (fun i j =>
        (coord j / s.pixelscale / 2 / s.oversample) ^ 2 +
        (coord i / s.pixelscale / 2 / s.oversample) ^ 2)
    let T : Fin n → Fin n → ℂ :=
      fun i j => -Complex.I * (π : ℂ) * (s.wavelength : ℂ) * (dz : ℂ) * (rho i j : ℂ)
    let s1 := fftW B s
    let s2 := { s1 with field := fun i j => s1.field i j * Complex.exp (T i j) }
    let s3 := invFftW B s2
    { s3 with z := s3.z + dz, history := s3.history ++ [HistEntry.ptpStep dz] }

/-- `Wavefront.wts` (lines 430-466): waist-to-spherical propagation.
No-op (logged error in the source) when `dz == 0`.  Otherwise: multiply by
`QuadPhase(dz, reference_wavelength=self.wavelength)`, forward FFT if
`dz > 0` else inverse FFT, rescale the pixel scale to
`wavelength*|dz|/(n*pixelscale)`, advance `z`, and log. -/
def wts [NeZero n] (B : FFTBackend n) (s : Wavefront n) (dz : ℝ) : Wavefront n :=
  if dz = 0 then s
  else
    let s1 := mulQuadPhase s ⟨dz, s.wavelength⟩
    let s2 := if 0 < dz then fftW B s1 else invFftW B s1
    { s2 with pixelscale := s.wavelength * |dz| / (n * s2.pixelscale),
              z := s2.z + dz,
              history := s2.history ++ [HistEntry.wtsStep dz] }

/-- `Wavefront.stw` (lines 468-503): spherical-to-waist propagation.
No-op (logged error in the source) when `dz == 0`.  Otherwise: forward FFT
if `dz > 0` else inverse FFT, rescale the pixel scale (before applying the
curvature, order matters), multiply by `QuadPhase(dz, ...)`, advance `z`,
and log. -/
def stw [NeZero n] (B : FFTBackend n) (s : Wavefront n) (dz : ℝ) : Wavefront n :=
  if dz = 0 then s
  else
    let s1 := if 0 < dz then fftW B s else invFftW B s
    let s2 := { s1 with pixelscale := s.wavelength * |dz| / (n * s1.pixelscale) }
    let s3 := mulQuadPhase s2 ⟨dz, s.wavelength⟩
    { s3 with z := s3.z + dz, history := s3.history ++ [HistEntry.stwStep dz] }

/-- Line 545 of `propagate_fresnel`:
`self.wavefront = np.fft.fftshift(self.wavefront)`. -/
def shiftField [NeZero n] (s : Wavefront n) : Wavefront n :=
  { s with field := fftshift2 s.field }

/-- Lines 586-587 of `propagate_fresnel`: undo the frequency shift and mark
the plane type `_INTERMED`. -/
def finishFresnel [NeZero n] (s : Wavefront n) : Wavefront n :=
  { s with field := fftshift2 s.field, planetype := PlaneType.intermed }

/-- `Wavefront.propagate_fresnel` (lines 523-588) with
`display_intermed=False`: frequency-shift the field, dispatch on
`{planar, spherical} × {target within planar_range, outside}` to the kernel
sequence of the regime table, undo the shift, and mark the plane type
`_INTERMED`. -/
def propagateFresnel [NeZero n] (B : FFTBackend n) (s : Wavefront n) (delta_z : ℝ) :
    Wavefront n :=
  let zt := s.z + delta_z
  let s0 := shiftField s
  let s3 :=
    if s.spherical = false then
      if planarRange s zt then
        ptp B s0 delta_z
      else
        let s1 := ptp B s0 (s0.z_w0 - s0.z)
        wts B s1 (zt - s1.z_w0)
    else
      if planarRange s zt then
        let s1 := stw B s0 (s0.z_w0 - s0.z)
        ptp B s1 (zt - s1.z_w0)
      else
        let s1 := stw B s0 (s0.z_w0 - s0.z)
        wts B s1 (zt - s1.z_w0)
  finishFresnel s3

/-- Lines 619-626 of `apply_optic`: the input radius of curvature
`R_input_beam`, set to `z - z_w0` when the last surface is outside
`rayl_factor * z_R` of the waist (which also forces the spherical
classification), and to `np.inf` (`none`) otherwise. -/
def rInputBeam (s : Wavefront n) : Option ℝ :=
  if |s.z_w0 - s.z| > s.rayl_factor * zR s then some (s.z - s.z_w0) else none

/-- Lines 616-646 of `apply_optic`: the beam-parameter bookkeeping common to
every path — the spherical reclassification, the input curvature `r_curve`
(treating pupil/image planes as flat), and the post-lens waist update: the
flat-output special case `R_c(zl) == fl`, else the Gaussian-beam
transformation-through-lens formulas. -/
def applyOpticCore (s : Wavefront n) (optic : GaussianLens) (zl : ℝ) : Wavefront n :=
  let new_waist := spotRadius s zl
  let sph' : Bool :=
    if |s.z_w0 - s.z| > s.rayl_factor * zR s then true else s.spherical
  let r_curve : ℝ :=
    if s.planetype = PlaneType.pupil ∨ s.planetype = PlaneType.image then
      -optic.fl
    else
      1 / (invOpt (R_c s zl) - 1 / optic.fl)
  let zw0' : ℝ :=
    if R_c s zl = some optic.fl then zl
    else -r_curve / (1 + (s.wavelength * r_curve / (π * new_waist ^ 2)) ^ 2) + zl
  let w0' : ℝ :=
    if R_c s zl = some optic.fl then new_waist
    else new_waist / Real.sqrt (1 + (π * new_waist ^ 2 / (s.wavelength * r_curve)) ^ 2)
  { s with spherical := sph', z_w0 := zw0', w_0 := w0' }

/-- Lines 660-693 of `apply_optic` (step 7): the effective focal length
`z_eff` and the spherical-flag transition, dispatched on the post-update
beam state.  Python's `if R_input_beam == 0` guard is a plain `if` whose
assignment is always overwritten by the following `if/else`, so the chain
reduces to the `if/else` on `zl - z_w0`; `none` models the fall-through
cases (`|z_w0 - zl| == z_R` exactly) where `z_eff` is never assigned and
the source raises `NameError`. -/
def zEffAndFlag (sph : Bool) (zw0 w0 lam z zl fl : ℝ) (rIn : Option ℝ) :
    Option (ℝ × Bool) :=
  let zr := π * w0 ^ 2 / lam
  if sph = false ∧ |zw0 - zl| < zr then
    some (fl, sph)
  else if sph = false ∧ |zw0 - zl| > zr then
    some (1 / (1 / fl + 1 / (z - zw0)), true)
  else if sph = true ∧ |zw0 - zl| > zr then
    some
      ((if zl - zw0 = 0 then 1 / (1 / fl + 1 / (z - zw0))
        else 1 / (1 / fl + 1 / (z - zw0) - invOpt rIn)), sph)
  else if sph = true ∧ |zw0 - zl| < zr then
    some (1 / (1 / fl - invOpt rIn), false)
  else
    none

/-- Instrumentation of lines 660-693: holds exactly when the branch of the
`z_eff` chain that executes evaluates a division whose denominator is
exactly zero (`1.0/optic.fl`, `1.0/(self.z - self.z_w0)`,
`1.0/R_input_beam` when finite, or the outer reciprocal of the summed
curvatures).  In the `sph ∧ |z_w0 - zl| > z_R` case the dead
`if R_input_beam == 0` branch still evaluates `1.0/R_input_beam`, hence the
`rIn = some 0` disjunct. -/
def zEffZeroDiv (sph : Bool) (zw0 w0 lam z zl fl : ℝ) (rIn : Option ℝ) : Prop :=
  let zr := π * w0 ^ 2 / lam
  if sph = false ∧ |zw0 - zl| < zr then
    False
  else if sph = false ∧ |zw0 - zl| > zr then
    fl = 0 ∨ z - zw0 = 0 ∨ 1 / fl + 1 / (z - zw0) = 0
  else if sph = true ∧ |zw0 - zl| > zr then
    rIn = some 0 ∨
      (if zl - zw0 = 0 then fl = 0 ∨ z - zw0 = 0 ∨ 1 / fl + 1 / (z - zw0) = 0
       else fl = 0 ∨ z - zw0 = 0 ∨ (∃ r, rIn = some r ∧ r = 0) ∨
         1 / fl + 1 / (z - zw0) - invOpt rIn = 0)
  else if sph = true ∧ |zw0 - zl| < zr then
    fl = 0 ∨ (∃ r, rIn = some r ∧ r = 0) ∨ 1 / fl - invOpt rIn = 0
  else
    False

/-- `Wavefront.apply_optic` (lines 590-704).  `fr` is the external
base-class `propagateTo` fallback (ordinary Fraunhofer propagation, an
external collaborator).  Order of the source: beam-parameter update, the
Fraunhofer shortcut, the `ignore_wavefront` early return, the `z_eff`
chain with its flag transitions, the `QuadPhase(-z_eff)` multiplication,
the waist-history append, and the plane-type update.  `none` models the
`NameError` of the unhandled `z_eff` fall-through. -/
def applyOptic (fr : Wavefront n → GaussianLens → Wavefront n) (s : Wavefront n)
    (optic : GaussianLens) (zl : ℝ) (ignore_wavefront : Bool) :
    Option (Wavefront n) :=
  let rIn := rInputBeam s
  let s1 := applyOpticCore s optic zl
  if s1.force_fresnel = false ∧
      (s1.planetype = PlaneType.pupil ∨ s1.planetype = PlaneType.image) ∧
      (optic.planetype = PlaneType.image ∨ optic.planetype = PlaneType.pupil) then
    some (fr s1 optic)
  else if ignore_wavefront = true then
    some s1
  else
    match zEffAndFlag s1.spherical s1.z_w0 s1.w_0 s1.wavelength s1.z zl optic.fl rIn with
    | none => none
    | some (zeff, flag) =>
      let s2 := mulQuadPhase { s1 with spherical := flag } ⟨-zeff, s1.wavelength⟩
      some { s2 with waists_z := s2.waists_z ++ [s2.z_w0],
                     waists_w0 := s2.waists_w0 ++ [s2.w_0],
                     planetype := optic.planetype }

/-- The `z_eff` chain of `apply_optic` as actually invoked on a wavefront:
the post-update state feeds the conditions, the pre-update `R_input_beam`
feeds the reciprocals.  Holds when the executed branch divides by an
exactly-zero quantity. -/
def applyOpticStep7ZeroDiv (s : Wavefront n) (optic : GaussianLens) (zl : ℝ) : Prop :=
  let rIn := rInputBeam s
  let s1 := applyOpticCore s optic zl
  zEffZeroDiv s1.spherical s1.z_w0 s1.w_0 s1.wavelength s1.z zl optic.fl rIn

/-- `Wavefront.__init__` (lines 131-234): initial state at a pupil plane —
`z = z_w0 = 0`, `w_0 = beam_radius`, planar, waist history seeded with the
single entry `(0, beam_radius)`.  The base-class parts (initial
`pixelscale` from the diameter, the pupil plane type — an `_IMAGE` input
raises — and the initial field) are taken as parameters. -/
def mkWavefront (n : ℕ) (beam_radius wavelength pixelscale oversample rayl_factor : ℝ)
    (force_fresnel : Bool) (field : Fin n → Fin n → ℂ) : Wavefront n :=
  { wavelength := wavelength
    oversample := oversample
    z := 0
    z_w0 := 0
    w_0 := beam_radius
    pixelscale := pixelscale
    spherical := false
    planetype := PlaneType.pupil
    force_fresnel := force_fresnel
    rayl_factor := rayl_factor
    waists_z := [0]
    waists_w0 := [beam_radius]
    history := []
    field := field }

/-- The external `np.fft.fft2` on a 2×2 array: the unnormalized DFT with
kernel `exp(-2*pi*i*(a*j+b*k)/2) = (-1)^(a*j+b*k)`. -/
def np2fwd (X : Fin 2 → Fin 2 → ℂ) : Fin 2 → Fin 2 → ℂ :=
  fun a b => ∑ j : Fin 2, ∑ k : Fin 2,
    (-1 : ℂ) ^ (a.val * j.val + b.val * k.val) * X j k

/-- The external `np.fft.ifft2` on a 2×2 array: the conjugate DFT carrying
numpy's `1/(N*N)` normalization. -/
def np2inv (X : Fin 2 → Fin 2 → ℂ) : Fin 2 → Fin 2 → ℂ :=
  fun a b => (∑ j : Fin 2, ∑ k : Fin 2,
    (-1 : ℂ) ^ (a.val * j.val + b.val * k.val) * X j k) / 4

/-- The default (numpy) FFT backend instantiated on a 2×2 grid. -/
def np2 : FFTBackend 2 := ⟨np2fwd, np2inv⟩

/-- A concrete 2×2 wavefront used to instantiate the theorems: beam radius
1 m, wavelength 1 m (so `z_R = pi`), pixel scale 1 m, the constructor
defaults `oversample = 2`, `rayl_factor = 2`, `force_fresnel = True`, and
a uniform unit field. -/
def sampleWF : Wavefront 2 :=
  mkWavefront 2 1 1 1 2 2 true (fun _ _ => 1)

/- Helper lemmas: effect of the kernels on the scalar bookkeeping. -/

lemma ptp_skip [NeZero n] (B : FFTBackend n) (s : Wavefront n) {dz : ℝ}
    (h : |dz| < 1e-10) : ptp B s dz = s := by
  unfold ptp
  rw [if_pos h]

lemma ptp_z [NeZero n] (B : FFTBackend n) (s : Wavefront n) {dz : ℝ}
    (h : ¬ |dz| < 1e-10) : (ptp B s dz).z = s.z + dz := by
  unfold ptp
  rw [if_neg h]
  rfl

lemma ptp_z_w0 [NeZero n] (B : FFTBackend n) (s : Wavefront n) (dz : ℝ) :
    (ptp B s dz).z_w0 = s.z_w0 := by
  unfold ptp
  split <;> rfl

lemma wts_zero [NeZero n] (B : FFTBackend n) (s : Wavefront n) : wts B s 0 = s := by
  unfold wts
  rw [if_pos rfl]

lemma wts_z_w0 [NeZero n] (B : FFTBackend n) (s : Wavefront n) (dz : ℝ) :
    (wts B s dz).z_w0 = s.z_w0 := by
  unfold wts
  split
  · rfl
  · dsimp only
    split <;> rfl

lemma wts_z [NeZero n] (B : FFTBackend n) (s : Wavefront n) {dz : ℝ} (h : dz ≠ 0) :
    (wts B s dz).z = s.z + dz := by
  unfold wts
  rw [if_neg h]
  dsimp only
  split <;> rfl

lemma wts_pixelscale [NeZero n] (B : FFTBackend n) (s : Wavefront n) {dz : ℝ}
    (h : dz ≠ 0) :
    (wts B s dz).pixelscale = s.wavelength * |dz| / (n * s.pixelscale) := by
  unfold wts
  rw [if_neg h]
  dsimp only
  split <;> rfl

lemma stw_zero [NeZero n] (B : FFTBackend n) (s : Wavefront n) : stw B s 0 = s := by
  unfold stw
  rw [if_pos rfl]

lemma stw_z_w0 [NeZero n] (B : FFTBackend n) (s : Wavefront n) (dz : ℝ) :
    (stw B s dz).z_w0 = s.z_w0 := by
  unfold stw
  split
  · rfl
  · dsimp only
    split <;> rfl

lemma stw_z [NeZero n] (B : FFTBackend n) (s : Wavefront n) {dz : ℝ} (h : dz ≠ 0) :
    (stw B s dz).z = s.z + dz := by
  unfold stw
  rw [if_neg h]
  dsimp only
  split <;> rfl

lemma stw_pixelscale [NeZero n] (B : FFTBackend n) (s : Wavefront n) {dz : ℝ}
    (h : dz ≠ 0) :
    (stw B s dz).pixelscale = s.wavelength * |dz| / (n * s.pixelscale) := by
  unfold stw
  rw [if_neg h]
  dsimp only
  split <;> rfl

/- Concrete facts about the 2x2 numpy backend. -/

lemma np2_inv_fwd (X : Fin 2 → Fin 2 → ℂ) : np2inv (np2fwd X) = X := by
  funext a b
  simp only [np2inv, np2fwd, Fin.sum_univ_two, Fin.val_zero, Fin.val_one]
  fin_cases a <;> fin_cases b <;> norm_num <;> ring_nf

lemma np2_fwd_inv (X : Fin 2 → Fin 2 → ℂ) : np2fwd (np2inv X) = X := by
  funext a b
  simp only [np2inv, np2fwd, Fin.sum_univ_two, Fin.val_zero, Fin.val_one]
  fin_cases a <;> fin_cases b <;> norm_num <;> ring_nf

lemma np2_inv_lin (c : ℂ) (X : Fin 2 → Fin 2 → ℂ) :
    np2inv (fun i j => c * X i j) = fun i j => c * np2inv X i j := by
  funext a b
  simp only [np2inv, Fin.sum_univ_two]
  ring

lemma np2_fwd_lin (c : ℂ) (X : Fin 2 → Fin 2 → ℂ) :
    np2fwd (fun i j => c * X i j) = fun i j => c * np2fwd X i j := by
  funext a b
  simp only [np2fwd, Fin.sum_univ_two]
  ring

/-- C7: zero-distance degenerate calls are pure no-ops of the whole state.
`wts(0)` and `stw(0)` return before any mutation, and `ptp(dz)` with
`|dz|` below one angstrom (`1e-10` m) skips; in particular `z`, `z_w0`,
`w_0`, `pixelscale`, and the field array are unchanged and no exception is
raised (the modelled calls are total functions).  The logged
warning/error is a side effect of the external logging collaborator and
has no state counterpart. -/
theorem c7_zero_distance_noop [NeZero n] (B : FFTBackend n) (s : Wavefront n) (dz : ℝ) :
    wts B s 0 = s ∧ stw B s 0 = s ∧ (|dz| < 1e-10 → ptp B s dz = s) :=
  ⟨wts_zero B s, stw_zero B s, fun h => ptp_skip B s h⟩

/-- Witness for C7 at the concrete sample wavefront and `dz = 1e-11`. -/
theorem c7_zero_distance_noop_witness :
    wts np2 sampleWF 0 = sampleWF ∧ stw np2 sampleWF 0 = sampleWF ∧
      ptp np2 sampleWF 1e-11 = sampleWF :=
  ⟨(c7_zero_distance_noop np2 sampleWF 1e-11).1,
   (c7_zero_distance_noop np2 sampleWF 1e-11).2.1,
   (c7_zero_distance_noop np2 sampleWF 1e-11).2.2 (by rw [abs_of_pos] <;> norm_num)⟩

/-- C9: the FFT round trip.  `fft()` divides the backend forward transform
by the linear grid dimension and `inv_fft()` multiplies the backend
inverse by it, so under the external backend contract (the backend inverse
undoes the backend forward transform and is linear — satisfied by both the
numpy and the pyfftw configuration) `inv_fft(fft(X)) = X` for every field,
in particular for every even linear dimension `n`. -/
theorem c9_fft_round_trip [NeZero n] (B : FFTBackend n)
    (hinv : ∀ X, B.inv (B.fwd X) = X)
    (hlin : ∀ (c : ℂ) (X : Fin n → Fin n → ℂ),
      B.inv (fun i j => c * X i j) = fun i j => c * B.inv X i j)
    (_heven : Even n) (s : Wavefront n) :
    invFftW B (fftW B s) = s := by
  have hn : (n : ℂ) ≠ 0 := Nat.cast_ne_zero.mpr (NeZero.ne n)
  obtain ⟨wl, ov, z, zw, w0, pix, sph, plt, ff, rayl, wz, ww, hist, f⟩ := s
  simp only [invFftW, fftW]
  congr 1
  have h1 : (fun i j => B.fwd f i j / (n : ℂ))
      = fun i j => ((n : ℂ)⁻¹) * B.fwd f i j := by
    funext a b
    rw [div_eq_inv_mul]
  rw [h1, hlin, hinv]
  funext a b
  show (n : ℂ)⁻¹ * f a b * (n : ℂ) = f a b
  rw [mul_comm ((n : ℂ)⁻¹) (f a b), mul_assoc, inv_mul_cancel₀ hn, mul_one]

/-- Witness for C9 at the concrete 2x2 numpy backend and sample wavefront. -/
theorem c9_fft_round_trip_witness : invFftW np2 (fftW np2 sampleWF) = sampleWF :=
  c9_fft_round_trip np2 np2_inv_fwd np2_inv_lin ⟨1, rfl⟩ sampleWF

/-- C10: with a physically meaningful configuration (`w_0 > 0`, wavelength
positive, `rayl_factor > 0`), `R_input_beam` is never exactly zero: it is
finite only when `|z_w0 - z| > rayl_factor * z_R > 0`, hence nonzero, and
otherwise infinite; consequently the `if R_input_beam == 0` guard in the
spherical-to-spherical sub-case of `apply_optic` step 7 can never fire. -/
theorem c10_r_input_beam_nonzero (s : Wavefront n) (hw : 0 < s.w_0)
    (hlam : 0 < s.wavelength) (hrayl : 0 < s.rayl_factor) :
    (∀ r, rInputBeam s = some r →
      |s.z_w0 - s.z| > s.rayl_factor * zR s ∧ 0 < s.rayl_factor * zR s) ∧
    rInputBeam s ≠ some 0 := by
  have hzr : 0 < zR s := by
    unfold zR
    positivity
  have hpos : 0 < s.rayl_factor * zR s := mul_pos hrayl hzr
  constructor
  · intro r hr
    unfold rInputBeam at hr
    by_cases h : |s.z_w0 - s.z| > s.rayl_factor * zR s
    · exact ⟨h, hpos⟩
    · rw [if_neg h] at hr
      exact absurd hr (by simp)
  · intro hr
    unfold rInputBeam at hr
    by_cases h : |s.z_w0 - s.z| > s.rayl_factor * zR s
    · rw [if_pos h] at hr
      have h0 : s.z - s.z_w0 = 0 := by simpa using hr
      have habs : |s.z_w0 - s.z| = 0 := by
        rw [abs_eq_zero]
        linarith
      rw [habs] at h
      linarith
    · rw [if_neg h] at hr
      exact absurd hr (by simp)

lemma shiftField_z [NeZero n] (s : Wavefront n) : (shiftField s).z = s.z := rfl

lemma shiftField_z_w0 [NeZero n] (s : Wavefront n) : (shiftField s).z_w0 = s.z_w0 := rfl

lemma finishFresnel_z [NeZero n] (s : Wavefront n) : (finishFresnel s).z = s.z := rfl

/-- Propagating to the waist with `ptp(z_w0 - z)` lands `z` exactly on
`z_w0`, provided the distance is zero or at least an angstrom. -/
lemma ptp_to_waist_z [NeZero n] (B : FFTBackend n) (s : Wavefront n)
    (h : s.z_w0 - s.z = 0 ∨ 1e-10 ≤ |s.z_w0 - s.z|) :
    (ptp B (shiftField s) (s.z_w0 - s.z)).z = s.z_w0 := by
  rcases h with h | h
  · rw [h, ptp_skip B _ (by norm_num), shiftField_z]
    linarith
  · rw [ptp_z B _ (not_lt.mpr h), shiftField_z]
    ring

/-- Propagating to the waist with `stw(z_w0 - z)` lands `z` exactly on
`z_w0` (the zero-distance no-op already sits at the waist). -/
lemma stw_to_waist_z [NeZero n] (B : FFTBackend n) (s : Wavefront n) :
    (stw B (shiftField s) (s.z_w0 - s.z)).z = s.z_w0 := by
  by_cases h : s.z_w0 - s.z = 0
  · rw [h, stw_zero, shiftField_z]
    linarith
  · rw [stw_z B _ h, shiftField_z]
    ring

/-- C1: the kernel sequence of `propagate_fresnel(delta_z)` follows the
four-row regime table.  Planar and in range: `ptp(delta_z)` alone; planar
and out of range: `ptp(z_w0 - z)` then `wts(z_target - z_w0)`; spherical
and in range: `stw(z_w0 - z)` then `ptp(z_target - z_w0)`; spherical and
out of range: `stw(z_w0 - z)` then `wts(z_target - z_w0)` — all wrapped in
the frequency shift and un-shift — where in range means the strict test
`|z_w0 - z_target| < z_R` (false at exact equality), and afterwards the
plane type is `_INTERMED`. -/
theorem c1_regime_dispatch [NeZero n] (B : FFTBackend n) (s : Wavefront n) (dz : ℝ) :
    ((s.spherical = false ∧ |s.z_w0 - (s.z + dz)| < zR s) →
      propagateFresnel B s dz = finishFresnel (ptp B (shiftField s) dz)) ∧
    ((s.spherical = false ∧ ¬ |s.z_w0 - (s.z + dz)| < zR s) →
      propagateFresnel B s dz =
        finishFresnel (wts B (ptp B (shiftField s) (s.z_w0 - s.z)) (s.z + dz - s.z_w0))) ∧
    ((s.spherical = true ∧ |s.z_w0 - (s.z + dz)| < zR s) →
      propagateFresnel B s dz =
        finishFresnel (ptp B (stw B (shiftField s) (s.z_w0 - s.z)) (s.z + dz - s.z_w0))) ∧
    ((s.spherical = true ∧ ¬ |s.z_w0 - (s.z + dz)| < zR s) →
      propagateFresnel B s dz =
        finishFresnel (wts B (stw B (shiftField s) (s.z_w0 - s.z)) (s.z + dz - s.z_w0))) ∧
    (propagateFresnel B s dz).planetype = PlaneType.intermed ∧
    (∀ z, planarRange s z ↔ |s.z_w0 - z| < zR s) := by
  refine ⟨?_, ?_, ?_, ?_, ?_, fun z => Iff.rfl⟩
  · rintro ⟨hs, hr⟩
    simp only [propagateFresnel]
    rw [if_pos hs, if_pos (show planarRange s (s.z + dz) from hr)]
  · rintro ⟨hs, hr⟩
    simp only [propagateFresnel]
    rw [if_pos hs, if_neg (show ¬ planarRange s (s.z + dz) from hr)]
    simp only [shiftField_z_w0, shiftField_z, ptp_z_w0]
  · rintro ⟨hs, hr⟩
    simp only [propagateFresnel]
    rw [if_neg (show ¬ s.spherical = false by simp [hs]),
      if_pos (show planarRange s (s.z + dz) from hr)]
    simp only [shiftField_z_w0, shiftField_z, stw_z_w0]
  · rintro ⟨hs, hr⟩
    simp only [propagateFresnel]
    rw [if_neg (show ¬ s.spherical = false by simp [hs]),
      if_neg (show ¬ planarRange s (s.z + dz) from hr)]
    simp only [shiftField_z_w0, shiftField_z, stw_z_w0]
  · simp only [propagateFresnel]
    split <;> split <;> rfl

/-- Witness for C1: the planar in-range row at the sample wavefront,
`delta_z = 1` with `z_R = pi`. -/
theorem c1_regime_dispatch_witness :
    sampleWF.spherical = false ∧ |sampleWF.z_w0 - (sampleWF.z + 1)| < zR sampleWF ∧
      propagateFresnel np2 sampleWF 1 = finishFresnel (ptp np2 (shiftField sampleWF) 1) := by
  have h1 : sampleWF.spherical = false := rfl
  have h2 : |sampleWF.z_w0 - (sampleWF.z + 1)| < zR sampleWF := by
    have : sampleWF.z_w0 - (sampleWF.z + 1) = -1 := by
      norm_num [sampleWF, mkWavefront]
    rw [this, abs_neg, abs_one]
    unfold zR
    have : π * sampleWF.w_0 ^ 2 / sampleWF.wavelength = π := by
      norm_num [sampleWF, mkWavefront]
    rw [this]
    linarith [Real.pi_gt_three]
  exact ⟨h1, h2, (c1_regime_dispatch np2 sampleWF 1).1 ⟨h1, h2⟩⟩

/-- C3 counterexample: for the nonzero sub-angstrom distance
`delta_z = 1e-11` on a planar in-range wavefront, the `ptp` kernel's
`np.abs(dz) < 1*u.Angstrom` guard skips the propagation and the final `z`
is NOT the initial `z` plus `delta_z`, refuting the claim quantified over
every `delta_z`. -/
theorem c3_final_z_counterexample :
    (propagateFresnel np2 sampleWF 1e-11).z ≠ sampleWF.z + 1e-11 := by
  have hs : sampleWF.spherical = false := rfl
  have hr : planarRange sampleWF (sampleWF.z + 1e-11) := by
    unfold planarRange
    have : sampleWF.z_w0 - (sampleWF.z + 1e-11) = -(1e-11) := by
      norm_num [sampleWF, mkWavefront]
    rw [this, abs_neg]
    unfold zR
    have : π * sampleWF.w_0 ^ 2 / sampleWF.wavelength = π := by
      norm_num [sampleWF, mkWavefront]
    rw [this, abs_of_pos (by norm_num)]
    linarith [Real.pi_gt_three]
  have hdisp : propagateFresnel np2 sampleWF 1e-11
      = finishFresnel (ptp np2 (shiftField sampleWF) 1e-11) := by
    simp only [propagateFresnel]
    rw [if_pos hs, if_pos hr]
  rw [hdisp, finishFresnel_z, ptp_skip np2 _ (by rw [abs_of_pos] <;> norm_num),
    shiftField_z]
  norm_num [sampleWF, mkWavefront]

/-- C3 (amended): after `propagate_fresnel(delta_z)` the final `z` equals
the initial `z` plus `delta_z` in all four regime rows, provided the beam
is physical (positive wavelength, nonzero waist radius, so `z_R > 0` and
the `wts` legs have nonzero distance) and each `ptp` distance that the
dispatched sequence can use (`delta_z`, `z_w0 - z`, `z_target - z_w0`) is
either exactly zero or at least one angstrom (`1e-10` m) in magnitude;
a `ptp` distance strictly between the two is skipped by the sub-angstrom
guard and `z` falls short by exactly that amount. -/
theorem c3_final_z_amended [NeZero n] (B : FFTBackend n) (s : Wavefront n) (dz : ℝ)
    (hlam : 0 < s.wavelength) (hw : s.w_0 ≠ 0)
    (h1 : dz = 0 ∨ 1e-10 ≤ |dz|)
    (h2 : s.z_w0 - s.z = 0 ∨ 1e-10 ≤ |s.z_w0 - s.z|)
    (h3 : s.z + dz - s.z_w0 = 0 ∨ 1e-10 ≤ |s.z + dz - s.z_w0|) :
    (propagateFresnel B s dz).z = s.z + dz := by
  have hzr : 0 < zR s := by
    unfold zR
    positivity
  have hout : ¬ planarRange s (s.z + dz) → s.z + dz - s.z_w0 ≠ 0 := by
    intro hr h0
    apply hr
    unfold planarRange
    have he : s.z_w0 - (s.z + dz) = 0 := by linarith
    rw [he, abs_zero]
    exact hzr
  simp only [propagateFresnel]
  by_cases hs : s.spherical = false
  · rw [if_pos hs]
    by_cases hr : planarRange s (s.z + dz)
    · rw [if_pos hr, finishFresnel_z]
      rcases h1 with h | h
      · rw [h, ptp_skip B _ (by norm_num), shiftField_z, add_zero]
      · rw [ptp_z B _ (not_lt.mpr h), shiftField_z]
    · rw [if_neg hr, finishFresnel_z]
      simp only [ptp_z_w0, shiftField_z_w0, shiftField_z]
      rw [wts_z B _ (hout hr), ptp_to_waist_z B s h2]
      ring
  · rw [if_neg hs]
    by_cases hr : planarRange s (s.z + dz)
    · rw [if_pos hr, finishFresnel_z]
      simp only [stw_z_w0, shiftField_z_w0, shiftField_z]
      rcases h3 with h | h
      · rw [h, ptp_skip B _ (by norm_num), stw_to_waist_z B s]
        linarith
      · rw [ptp_z B _ (not_lt.mpr h), stw_to_waist_z B s]
        ring
    · rw [if_neg hr, finishFresnel_z]
      simp only [stw_z_w0, shiftField_z_w0, shiftField_z]
      rw [wts_z B _ (hout hr), stw_to_waist_z B s]
      ring

/-- Witness for C3 (amended) at the sample wavefront with `delta_z = 1`. -/
theorem c3_final_z_amended_witness :
    (propagateFresnel np2 sampleWF 1).z = sampleWF.z + 1 :=
  c3_final_z_amended np2 sampleWF 1
    (by norm_num [sampleWF, mkWavefront])
    (by norm_num [sampleWF, mkWavefront])
    (by right; rw [abs_one]; norm_num)
    (by left; norm_num [sampleWF, mkWavefront])
    (by right; norm_num [sampleWF, mkWavefront])

/-- Witness for C10 at the concrete sample wavefront. -/
theorem c10_r_input_beam_nonzero_witness :
    0 < sampleWF.w_0 ∧ rInputBeam sampleWF ≠ some 0 :=
  ⟨by norm_num [sampleWF, mkWavefront],
   (c10_r_input_beam_nonzero sampleWF (by norm_num [sampleWF, mkWavefront])
      (by norm_num [sampleWF, mkWavefront]) (by norm_num [sampleWF, mkWavefront])).2⟩

lemma ptp_spherical [NeZero n] (B : FFTBackend n) (s : Wavefront n) (dz : ℝ) :
    (ptp B s dz).spherical = s.spherical := by
  unfold ptp
  split <;> rfl

lemma wts_spherical [NeZero n] (B : FFTBackend n) (s : Wavefront n) (dz : ℝ) :
    (wts B s dz).spherical = s.spherical := by
  unfold wts
  split
  · rfl
  · dsimp only
    split <;> rfl

lemma stw_spherical [NeZero n] (B : FFTBackend n) (s : Wavefront n) (dz : ℝ) :
    (stw B s dz).spherical = s.spherical := by
  unfold stw
  split
  · rfl
  · dsimp only
    split <;> rfl

lemma shiftField_spherical [NeZero n] (s : Wavefront n) :
    (shiftField s).spherical = s.spherical := rfl

lemma finishFresnel_spherical [NeZero n] (s : Wavefront n) :
    (finishFresnel s).spherical = s.spherical := rfl

/-- C5 (code bug): the spherical/planar flag does not track the regime.
`propagate_fresnel` (and the `wts`/`stw` kernels it calls — `wts` carries
the source FIXME "update self.spherical to be true here?") never updates
`self.spherical`, so a planar wavefront propagated to a target strictly
outside the Rayleigh range — the row that ends in `wts`, which per the
`wts` docstring yields a spherical output wavefront — still reports
`spherical = False`, and a subsequent `propagate_fresnel` would dispatch
on the planar rows.  Concretely: `z_R = pi`, target `z = 4` outside the
range, flag still `false`. -/
theorem c5_spherical_flag_not_updated :
    ¬ planarRange sampleWF (sampleWF.z + 4) ∧
      (propagateFresnel np2 sampleWF 4).spherical = false := by
  have hr : ¬ planarRange sampleWF (sampleWF.z + 4) := by
    unfold planarRange
    have h4 : sampleWF.z_w0 - (sampleWF.z + 4) = -4 := by
      norm_num [sampleWF, mkWavefront]
    rw [h4, abs_neg, abs_of_pos (by norm_num : (0:ℝ) < 4)]
    unfold zR
    have hz : π * sampleWF.w_0 ^ 2 / sampleWF.wavelength = π := by
      norm_num [sampleWF, mkWavefront]
    rw [hz]
    push_neg
    linarith [Real.pi_lt_d2]
  refine ⟨hr, ?_⟩
  have hs : sampleWF.spherical = false := rfl
  simp only [propagateFresnel]
  rw [if_pos hs, if_neg hr]
  simp only [finishFresnel_spherical, wts_spherical, ptp_spherical, shiftField_spherical]
  exact hs

lemma applyOpticCore_z [NeZero n] (s : Wavefront n) (optic : GaussianLens) (zl : ℝ) :
    (applyOpticCore s optic zl).z = s.z := rfl

lemma applyOpticCore_wavelength [NeZero n] (s : Wavefront n) (optic : GaussianLens)
    (zl : ℝ) : (applyOpticCore s optic zl).wavelength = s.wavelength := rfl

lemma applyOpticCore_planetype [NeZero n] (s : Wavefront n) (optic : GaussianLens)
    (zl : ℝ) : (applyOpticCore s optic zl).planetype = s.planetype := rfl

lemma applyOpticCore_force_fresnel [NeZero n] (s : Wavefront n) (optic : GaussianLens)
    (zl : ℝ) : (applyOpticCore s optic zl).force_fresnel = s.force_fresnel := rfl

lemma applyOpticCore_waists_z [NeZero n] (s : Wavefront n) (optic : GaussianLens)
    (zl : ℝ) : (applyOpticCore s optic zl).waists_z = s.waists_z := rfl

lemma applyOpticCore_waists_w0 [NeZero n] (s : Wavefront n) (optic : GaussianLens)
    (zl : ℝ) : (applyOpticCore s optic zl).waists_w0 = s.waists_w0 := rfl

/-- The beam-parameter update of `apply_optic` at the configuration of the
lens-at-focus scenario: initial pupil-plane wavefront with waist `W` at
`z = 0`, lens of focal length `f` at `z_lens = 0`.  The spot radius at the
waist is `W`, the input curvature is infinite (so the flat-output branch is
not taken), the pupil plane forces `r_curve = -f`, and the
transformation-through-lens formulas give the claimed waist. -/
lemma core_at_pupil_focus [NeZero n] (W lam f pix ov rayl : ℝ) (plt : PlaneType)
    (ff : Bool) (field : Fin n → Fin n → ℂ) :
    (applyOpticCore (mkWavefront n W lam pix ov rayl ff field) ⟨f, plt⟩ 0).z_w0
        = f / (1 + (lam * f / (π * W ^ 2)) ^ 2) ∧
    (applyOpticCore (mkWavefront n W lam pix ov rayl ff field) ⟨f, plt⟩ 0).w_0
        = W / Real.sqrt (1 + (π * W ^ 2 / (lam * f)) ^ 2) := by
  have hspot : spotRadius (mkWavefront n W lam pix ov rayl ff field) 0 = W := by
    unfold spotRadius
    norm_num [mkWavefront, Real.sqrt_one]
  have hrc : R_c (mkWavefront n W lam pix ov rayl ff field) 0 = none := by
    unfold R_c
    rw [if_pos]
    norm_num [mkWavefront]
  have hplt : (mkWavefront n W lam pix ov rayl ff field).planetype = PlaneType.pupil := rfl
  have hwl : (mkWavefront n W lam pix ov rayl ff field).wavelength = lam := rfl
  have hne : ¬ (none : Option ℝ) = some f := by simp
  simp only [applyOpticCore, hspot, hrc]
  rw [if_pos (Or.inl hplt), if_neg hne, if_neg hne, hwl]
  constructor
  · ring
  · rw [show (π * W ^ 2 / (lam * -f)) ^ 2 = (π * W ^ 2 / (lam * f)) ^ 2 from by ring]

/-- C2: the thin-lens Gaussian-beam update.  (1) For an initially planar
wavefront at a pupil plane with waist `W` at `z = 0`, `apply_optic` with a
lens of focal length `f` at `z_lens = 0` and `ignore_wavefront = True`
sets `z_w0 = f / (1 + (lam*f/(pi*W^2))^2)` and
`w_0 = W / sqrt(1 + (pi*W^2/(lam*f))^2)`, the standard
beam-through-lens transformation.  (2) In general, whenever `R_c(z_lens)`
equals the focal length exactly, the update instead sets `z_w0 = z_lens`
and `w_0 = spot_radius(z_lens)`. -/
theorem c2_lens_beam_update [NeZero n] :
    (∀ (fr : Wavefront n → GaussianLens → Wavefront n) (W lam f pix : ℝ)
       (plt : PlaneType) (field : Fin n → Fin n → ℂ), 0 < W → 0 < lam →
       (applyOptic fr (mkWavefront n W lam pix 2 2 true field) ⟨f, plt⟩ 0 true).map
           Wavefront.z_w0 = some (f / (1 + (lam * f / (π * W ^ 2)) ^ 2)) ∧
       (applyOptic fr (mkWavefront n W lam pix 2 2 true field) ⟨f, plt⟩ 0 true).map
           Wavefront.w_0 = some (W / Real.sqrt (1 + (π * W ^ 2 / (lam * f)) ^ 2))) ∧
    (∀ (s : Wavefront n) (optic : GaussianLens) (zl : ℝ),
       R_c s zl = some optic.fl →
       (applyOpticCore s optic zl).z_w0 = zl ∧
       (applyOpticCore s optic zl).w_0 = spotRadius s zl) := by
  constructor
  · intro fr W lam f pix plt field _hW _hlam
    have happ : applyOptic fr (mkWavefront n W lam pix 2 2 true field) ⟨f, plt⟩ 0 true
        = some (applyOpticCore (mkWavefront n W lam pix 2 2 true field) ⟨f, plt⟩ 0) := by
      simp [applyOptic, applyOpticCore_force_fresnel, mkWavefront]
    rw [happ, Option.map_some', Option.map_some']
    have h := core_at_pupil_focus (n := n) W lam f pix 2 2 plt true field
    exact ⟨by rw [h.1], by rw [h.2]⟩
  · intro s optic zl h
    unfold applyOpticCore
    constructor
    · show (if R_c s zl = some optic.fl then zl else _) = zl
      rw [if_pos h]
    · show (if R_c s zl = some optic.fl then spotRadius s zl else _) = spotRadius s zl
      rw [if_pos h]

/-- Witness for C2 at `W = lam = f = pix = 1` on the 2x2 grid (part 1) and
at a state with `R_c(z_lens) = fl` exactly (part 2, via `z_w0 = 0`,
`z_lens = 3*pi`, `fl = 10*pi/3` so that `R_c = 3*pi*(1 + 1/9) = fl`). -/
theorem c2_lens_beam_update_witness :
    (applyOptic (fun t _ => t) (mkWavefront 2 1 1 1 2 2 true fun _ _ => 1)
        ⟨1, PlaneType.intermed⟩ 0 true).map Wavefront.z_w0
      = some (1 / (1 + (1 * 1 / (π * 1 ^ 2)) ^ 2)) ∧
    (applyOpticCore sampleWF ⟨10 * π / 3, PlaneType.intermed⟩ (3 * π)).z_w0 = 3 * π := by
  have hz0 : sampleWF.z_w0 = 0 := rfl
  have hzr : zR sampleWF = π := by
    unfold zR
    norm_num [sampleWF, mkWavefront]
  have hrc : R_c sampleWF (3 * π)
      = some ((⟨10 * π / 3, PlaneType.intermed⟩ : GaussianLens).fl) := by
    unfold R_c
    rw [if_neg (by norm_num [sampleWF, mkWavefront, Real.pi_ne_zero])]
    congr 1
    rw [hz0, sub_zero, hzr]
    have hpi := Real.pi_ne_zero
    field_simp
    ring
  exact ⟨((c2_lens_beam_update (n := 2)).1 (fun t _ => t) 1 1 1 1 PlaneType.intermed
      (fun _ _ => 1) one_pos one_pos).1,
    ((c2_lens_beam_update (n := 2)).2 sampleWF ⟨10 * π / 3, PlaneType.intermed⟩
      (3 * π) hrc).1⟩

/-- C8 counterexample: with `ignore_wavefront = True`, `apply_optic` returns
(line 658) before the waist-history append (lines 698-699), so the waist
lists are left at length 1 instead of being extended to length 2 — even
though the beam parameters `z_w0`, `w_0` were updated — refuting the
"including when ignore_wavefront=True or the Fraunhofer delegation"
part of the claim. -/
theorem c8_waist_history_counterexample :
    (applyOptic (fun t _ => t) sampleWF ⟨1, PlaneType.intermed⟩ 0 true).map
        (fun t => t.waists_z.length) = some 1 ∧
    (applyOptic (fun t _ => t) sampleWF ⟨1, PlaneType.intermed⟩ 0 true).map
        (fun t => t.waists_z.length) ≠ some 2 := by
  have happ : applyOptic (fun t _ => t) sampleWF ⟨1, PlaneType.intermed⟩ 0 true
      = some (applyOpticCore sampleWF ⟨1, PlaneType.intermed⟩ 0) := by
    simp [applyOptic, applyOpticCore_force_fresnel, sampleWF, mkWavefront]
  rw [happ]
  constructor
  · rw [Option.map_some']
    rw [show (applyOpticCore sampleWF ⟨1, PlaneType.intermed⟩ 0).waists_z
      = sampleWF.waists_z from rfl]
    rfl
  · rw [Option.map_some']
    rw [show (applyOpticCore sampleWF ⟨1, PlaneType.intermed⟩ 0).waists_z
      = sampleWF.waists_z from rfl]
    simp [sampleWF, mkWavefront]

/-- C8 (amended): the waist-history lists are parallel and append-only, and
each path of `apply_optic` determines its outcome.  When the call returns
through the Fraunhofer shortcut (assuming the external fallback leaves the
Fresnel-specific waist lists alone, as the base class does not know them)
or through the `ignore_wavefront` early return, both lists are unchanged;
when neither early return fires (the full phase-application path), exactly
one entry — the updated `(z_w0, w_0)` pair — is appended to each list.
Either way the equal-length invariant is preserved. -/
theorem c8_waist_history_amended [NeZero n]
    (fr : Wavefront n → GaussianLens → Wavefront n)
    (hfr : ∀ t o, (fr t o).waists_z = t.waists_z ∧ (fr t o).waists_w0 = t.waists_w0)
    (s : Wavefront n) (optic : GaussianLens) (zl : ℝ) (ig : Bool) (s' : Wavefront n)
    (h : applyOptic fr s optic zl ig = some s') :
    ((((applyOpticCore s optic zl).force_fresnel = false ∧
        ((applyOpticCore s optic zl).planetype = PlaneType.pupil ∨
          (applyOpticCore s optic zl).planetype = PlaneType.image) ∧
        (optic.planetype = PlaneType.image ∨ optic.planetype = PlaneType.pupil)) ∨
       ig = true) →
      s'.waists_z = s.waists_z ∧ s'.waists_w0 = s.waists_w0) ∧
    ((¬ ((applyOpticCore s optic zl).force_fresnel = false ∧
        ((applyOpticCore s optic zl).planetype = PlaneType.pupil ∨
          (applyOpticCore s optic zl).planetype = PlaneType.image) ∧
        (optic.planetype = PlaneType.image ∨ optic.planetype = PlaneType.pupil)) ∧
      ig = false) →
      s'.waists_z = s.waists_z ++ [(applyOpticCore s optic zl).z_w0] ∧
      s'.waists_w0 = s.waists_w0 ++ [(applyOpticCore s optic zl).w_0]) ∧
    (s.waists_z.length = s.waists_w0.length →
      s'.waists_z.length = s'.waists_w0.length) := by
  simp only [applyOptic] at h
  split_ifs at h with h1 h2
  · have hs' := Option.some.inj h
    have hu : s'.waists_z = s.waists_z ∧ s'.waists_w0 = s.waists_w0 := by
      constructor
      · rw [← hs', (hfr (applyOpticCore s optic zl) optic).1, applyOpticCore_waists_z]
      · rw [← hs', (hfr (applyOpticCore s optic zl) optic).2, applyOpticCore_waists_w0]
    refine ⟨fun _ => hu, fun hc => absurd h1 hc.1, fun hl => ?_⟩
    rw [hu.1, hu.2, hl]
  · have hs' := Option.some.inj h
    have hu : s'.waists_z = s.waists_z ∧ s'.waists_w0 = s.waists_w0 := by
      constructor
      · rw [← hs', applyOpticCore_waists_z]
      · rw [← hs', applyOpticCore_waists_w0]
    refine ⟨fun _ => hu, fun hc => ?_, fun hl => ?_⟩
    · rw [h2] at hc
      exact absurd hc.2 (by simp)
    · rw [hu.1, hu.2, hl]
  · rcases he : zEffAndFlag (applyOpticCore s optic zl).spherical
        (applyOpticCore s optic zl).z_w0 (applyOpticCore s optic zl).w_0
        (applyOpticCore s optic zl).wavelength (applyOpticCore s optic zl).z zl
        optic.fl (rInputBeam s) with _ | ⟨zeff, flag⟩
    · rw [he] at h
      exact absurd h (by simp)
    · rw [he] at h
      have hs' := Option.some.inj h
      have hap : s'.waists_z = s.waists_z ++ [(applyOpticCore s optic zl).z_w0] ∧
          s'.waists_w0 = s.waists_w0 ++ [(applyOpticCore s optic zl).w_0] := by
        constructor
        · rw [← hs']
          rfl
        · rw [← hs']
          rfl
      refine ⟨fun hor => ?_, fun _ => hap, fun hl => ?_⟩
      · rcases hor with hc | hig
        · exact absurd hc h1
        · exact absurd hig h2
      · rw [hap.1, hap.2, List.length_append, List.length_append, hl]
        rfl

/-- Witness for C8 (amended), exercising both path implications at concrete
inputs.  On the `ignore_wavefront = True` path at the sample wavefront the
lists come back unchanged; on the full phase-application path
(`ignore_wavefront = False`, `force_fresnel = True`, a lens of focal
length 1 at `z_lens = 0` on the pupil-plane sample beam, which lands in
the planar-to-spherical `z_eff` sub-case since
`z_w0 = pi^2/(1+pi^2) > z_R = pi/(1+pi^2)`) the waist list grows from
length 1 to length 2. -/
theorem c8_waist_history_amended_witness :
    ((applyOpticCore sampleWF ⟨1, PlaneType.intermed⟩ 0).waists_z = sampleWF.waists_z ∧
     (applyOpticCore sampleWF ⟨1, PlaneType.intermed⟩ 0).waists_w0 = sampleWF.waists_w0) ∧
    (applyOptic (fun t _ => t) sampleWF ⟨1, PlaneType.intermed⟩ 0 false).map
        (fun t => t.waists_z.length) = some 2 := by
  have hfra : ¬ ((applyOpticCore sampleWF ⟨1, PlaneType.intermed⟩ 0).force_fresnel = false ∧
      ((applyOpticCore sampleWF ⟨1, PlaneType.intermed⟩ 0).planetype = PlaneType.pupil ∨
        (applyOpticCore sampleWF ⟨1, PlaneType.intermed⟩ 0).planetype = PlaneType.image) ∧
      ((⟨1, PlaneType.intermed⟩ : GaussianLens).planetype = PlaneType.image ∨
        (⟨1, PlaneType.intermed⟩ : GaussianLens).planetype = PlaneType.pupil)) := by
    rintro ⟨hc, -, -⟩
    rw [applyOpticCore_force_fresnel, show sampleWF.force_fresnel = true from rfl] at hc
    simp at hc
  constructor
  · have happ : applyOptic (fun t _ => t) sampleWF ⟨1, PlaneType.intermed⟩ 0 true
        = some (applyOpticCore sampleWF ⟨1, PlaneType.intermed⟩ 0) := by
      simp [applyOptic, applyOpticCore_force_fresnel, sampleWF, mkWavefront]
    exact (c8_waist_history_amended (fun t _ => t) (fun _ _ => ⟨rfl, rfl⟩) sampleWF
      ⟨1, PlaneType.intermed⟩ 0 true (applyOpticCore sampleWF ⟨1, PlaneType.intermed⟩ 0)
      happ).1 (Or.inr rfl)
  · have hpi := Real.pi_pos
    have hnc : ¬ (|sampleWF.z_w0 - sampleWF.z| > sampleWF.rayl_factor * zR sampleWF) := by
      rw [show sampleWF.z_w0 = 0 from rfl, show sampleWF.z = 0 from rfl, sub_self,
        abs_zero, show sampleWF.rayl_factor = 2 from rfl]
      have hzrpos : 0 < zR sampleWF := by
        unfold zR
        rw [show sampleWF.w_0 = 1 from rfl, show sampleWF.wavelength = 1 from rfl]
        positivity
      intro hgt
      linarith
    have hsphc : (applyOpticCore sampleWF ⟨1, PlaneType.intermed⟩ 0).spherical = false := by
      simp only [applyOpticCore]
      rw [if_neg hnc]
      rfl
    have hrinS : rInputBeam sampleWF = none := by
      unfold rInputBeam
      rw [if_neg hnc]
    have hczw : (applyOpticCore sampleWF ⟨1, PlaneType.intermed⟩ 0).z_w0
        = 1 / (1 + (1 * 1 / (π * 1 ^ 2)) ^ 2) :=
      (core_at_pupil_focus (n := 2) 1 1 1 1 2 2 PlaneType.intermed true (fun _ _ => 1)).1
    have hcw0 : (applyOpticCore sampleWF ⟨1, PlaneType.intermed⟩ 0).w_0
        = 1 / Real.sqrt (1 + (π * 1 ^ 2 / (1 * 1)) ^ 2) :=
      (core_at_pupil_focus (n := 2) 1 1 1 1 2 2 PlaneType.intermed true (fun _ _ => 1)).2
    have hcwl : (applyOpticCore sampleWF ⟨1, PlaneType.intermed⟩ 0).wavelength = 1 := rfl
    have hcz : (applyOpticCore sampleWF ⟨1, PlaneType.intermed⟩ 0).z = 0 := rfl
    have hZ : (1:ℝ) / (1 + (1 * 1 / (π * 1 ^ 2)) ^ 2) = π ^ 2 / (1 + π ^ 2) := by
      have hpne := Real.pi_ne_zero
      field_simp
      ring
    have hW2 : ((1:ℝ) / Real.sqrt (1 + (π * 1 ^ 2 / (1 * 1)) ^ 2)) ^ 2
        = 1 / (1 + π ^ 2) := by
      rw [div_pow, one_pow, Real.sq_sqrt (by positivity)]
      norm_num
    have hze : zEffAndFlag false (1 / (1 + (1 * 1 / (π * 1 ^ 2)) ^ 2))
        (1 / Real.sqrt (1 + (π * 1 ^ 2 / (1 * 1)) ^ 2)) 1 0 0 1 none
        = some (1 / (1 / 1 + 1 / (0 - 1 / (1 + (1 * 1 / (π * 1 ^ 2)) ^ 2))), true) := by
      simp only [zEffAndFlag]
      have hzrval : π * ((1:ℝ) / Real.sqrt (1 + (π * 1 ^ 2 / (1 * 1)) ^ 2)) ^ 2 / 1
          = π / (1 + π ^ 2) := by
        rw [hW2]
        ring
      have habsZ : |(1:ℝ) / (1 + (1 * 1 / (π * 1 ^ 2)) ^ 2) - 0| = π ^ 2 / (1 + π ^ 2) := by
        rw [sub_zero, abs_of_pos (by positivity), hZ]
      rw [hzrval, habsZ]
      have hgt : π / (1 + π ^ 2) < π ^ 2 / (1 + π ^ 2) := by
        have hden : (0:ℝ) < 1 + π ^ 2 := by positivity
        have hlt : π < π ^ 2 := by nlinarith [Real.pi_gt_three]
        exact (div_lt_div_iff_of_pos_right hden).mpr hlt
      rw [if_neg (by rintro ⟨-, hlt⟩; linarith), if_pos ⟨trivial, hgt⟩]
    have happF : ∃ s', applyOptic (fun t _ => t) sampleWF ⟨1, PlaneType.intermed⟩ 0 false
        = some s' := by
      simp only [applyOptic]
      rw [if_neg (by rintro ⟨-, -, hor | hor⟩ <;> cases hor),
        if_neg (by simp : ¬ (false = true))]
      rw [hsphc, hczw, hcw0, hcwl, hcz, hrinS, hze]
      exact ⟨_, rfl⟩
    obtain ⟨s', happ⟩ := happF
    rw [happ, Option.map_some']
    have hap := (c8_waist_history_amended (fun t _ => t) (fun _ _ => ⟨rfl, rfl⟩) sampleWF
      ⟨1, PlaneType.intermed⟩ 0 false s' happ).2.1 ⟨hfra, rfl⟩
    rw [hap.1, show sampleWF.waists_z = [(0:ℝ)] from rfl]
    rfl

/-- C6 counterexample: a division with an exactly-zero denominator executes
in `apply_optic` step 7 on a physically meaningful input.  Take a beam
with `w_0 = 1`, wavelength 1 (so `z_R = pi`) at `z = 10*pi/3` (outside
`rayl_factor * z_R = 2*pi`, so `R_input_beam = z - z_w0 = 10*pi/3`), and a
lens at `z_lens = 3*pi` whose focal length `10*pi/3` equals
`R_c(z_lens) = 3*pi*(1 + 1/9)` exactly.  The flat-output branch sets
`z_w0 = z_lens`, `w_0 = sqrt 10`, the spherical-to-planar sub-case is
taken, and `z_eff = 1/(1/fl - 1/R_input_beam)` executes `1.0/0.0`: its
outer reciprocal has denominator `1/(10*pi/3) - 1/(10*pi/3) = 0` — so not
every executed division has a nonzero denominator.  The second conjunct
shows step 7 is actually reached (neither early return fires). -/
theorem c6_zero_division_counterexample :
    applyOpticStep7ZeroDiv { sampleWF with z := 10 * π / 3 }
      ⟨10 * π / 3, PlaneType.intermed⟩ (3 * π) ∧
    (applyOptic (fun t _ => t) { sampleWF with z := 10 * π / 3 }
      ⟨10 * π / 3, PlaneType.intermed⟩ (3 * π) false).isSome = true := by
  set s6 : Wavefront 2 := { sampleWF with z := 10 * π / 3 } with hs6
  set L : GaussianLens := ⟨10 * π / 3, PlaneType.intermed⟩ with hdefL
  have hpi := Real.pi_pos
  have hz : s6.z = 10 * π / 3 := rfl
  have hzw : s6.z_w0 = 0 := rfl
  have hzr : zR s6 = π := by
    unfold zR
    rw [show s6.w_0 = 1 from rfl, show s6.wavelength = 1 from rfl]
    norm_num
  have hcond : |s6.z_w0 - s6.z| > s6.rayl_factor * zR s6 := by
    rw [hzw, hz, hzr, show s6.rayl_factor = 2 from rfl,
      show (0:ℝ) - 10 * π / 3 = -(10 * π / 3) from by ring, abs_neg,
      abs_of_pos (by positivity)]
    linarith
  have hrin : rInputBeam s6 = some (10 * π / 3) := by
    unfold rInputBeam
    rw [if_pos hcond, hz, hzw, sub_zero]
  have hrc : R_c s6 (3 * π) = some (10 * π / 3) := by
    unfold R_c
    rw [hzw, sub_zero, hzr, if_neg (by positivity : ¬ (3 * π) = 0)]
    congr 1
    field_simp
    ring
  have hfl : R_c s6 (3 * π) = some L.fl := by
    rw [hrc]
  have hspot : spotRadius s6 (3 * π) = Real.sqrt 10 := by
    unfold spotRadius
    rw [hzw, sub_zero, hzr, show s6.w_0 = 1 from rfl, one_mul]
    congr 1
    rw [show 3 * π / π = 3 from by field_simp]
    norm_num
  have hsph : (applyOpticCore s6 L (3 * π)).spherical = true := by
    simp only [applyOpticCore]
    rw [if_pos hcond]
  have hczw : (applyOpticCore s6 L (3 * π)).z_w0 = 3 * π := by
    simp only [applyOpticCore]
    rw [if_pos hfl]
  have hcw0 : (applyOpticCore s6 L (3 * π)).w_0 = Real.sqrt 10 := by
    simp only [applyOpticCore]
    rw [if_pos hfl, hspot]
  have hcwl : (applyOpticCore s6 L (3 * π)).wavelength = 1 := rfl
  have hcz : (applyOpticCore s6 L (3 * π)).z = 10 * π / 3 := rfl
  have hzr' : π * Real.sqrt 10 ^ 2 / 1 = 10 * π := by
    rw [Real.sq_sqrt (by norm_num : (0:ℝ) ≤ 10)]
    ring
  have hne3 : ¬ (True ∧ |3 * π - 3 * π| > 10 * π) := by
    rintro ⟨-, hg⟩
    rw [sub_self, abs_zero] at hg
    linarith
  have hin4 : (True ∧ |3 * π - 3 * π| < 10 * π) := by
    refine ⟨trivial, ?_⟩
    rw [sub_self, abs_zero]
    positivity
  constructor
  · simp only [applyOpticStep7ZeroDiv]
    rw [hsph, hczw, hcw0, hcwl, hcz, hrin]
    simp only [zEffZeroDiv]
    rw [hzr']
    rw [if_neg hne3, if_pos hin4]
    right
    right
    simp only [invOpt]
    exact sub_self _
  · simp only [applyOptic]
    rw [if_neg (by
      rintro ⟨hc, -⟩
      rw [applyOpticCore_force_fresnel, show s6.force_fresnel = true from rfl] at hc
      simp at hc)]
    rw [if_neg (by simp)]
    rw [hsph, hczw, hcw0, hcwl, hcz, hrin]
    have hze : zEffAndFlag true (3 * π) (Real.sqrt 10) 1 (10 * π / 3) (3 * π) L.fl
        (some (10 * π / 3))
        = some (1 / (1 / L.fl - invOpt (some (10 * π / 3))), false) := by
      simp only [zEffAndFlag]
      rw [hzr']
      rw [if_neg hne3, if_pos hin4, if_neg (by simp), if_neg (by simp)]
    rw [hze]
    rfl

/-- C6 (amended): the zero-distance conditions of `apply_optic` step 7 are
checked before the generic combination, and the plain-if structure of the
spherical-to-spherical sub-case makes the second condition decide the
outcome: when `(zl - z_w0) == 0` — in particular when it holds together
with `R_input_beam == 0` — the resulting `z_eff` is the one assigned by
the second conditional branch, the first assignment being overwritten and
the value of `R_input_beam` not influencing the result.  (The further
assertion of the original claim, that every division that executes has a
nonzero denominator, is refuted by the counterexample: the guarded first
branch divides by the zero `R_input_beam` itself, and the
spherical-to-planar combination can be an exact `1/0`.) -/
theorem c6_overwrite_amended (zw0 w0 lam z zl fl : ℝ) (rIn : Option ℝ)
    (h3 : |zw0 - zl| > π * w0 ^ 2 / lam) (hz : zl - zw0 = 0) :
    zEffAndFlag true zw0 w0 lam z zl fl rIn
      = some (1 / (1 / fl + 1 / (z - zw0)), true) := by
  simp only [zEffAndFlag]
  rw [if_pos (⟨trivial, h3⟩ : True ∧ |zw0 - zl| > π * w0 ^ 2 / lam), if_pos hz,
    if_neg (by simp), if_neg (by simp)]

/-- Witness for C6 (amended) with both zero conditions satisfied
(`R_input_beam = 0`, `zl - z_w0 = 0`; the out-of-range condition is met
with a negative wavelength, making `z_R` negative). -/
theorem c6_overwrite_amended_witness :
    zEffAndFlag true 0 1 (-1) 1 0 1 (some 0)
      = some (1 / (1 / 1 + 1 / (1 - 0)), true) :=
  c6_overwrite_amended 0 1 (-1) 1 0 1 (some 0)
    (by
      rw [show (0:ℝ) - 0 = 0 from by ring, abs_zero,
        show π * (1:ℝ) ^ 2 / (-1) = -π from by ring]
      linarith [Real.pi_pos])
    (by norm_num)

lemma wts_wavelength [NeZero n] (B : FFTBackend n) (s : Wavefront n) (dz : ℝ) :
    (wts B s dz).wavelength = s.wavelength := by
  unfold wts
  split
  · rfl
  · dsimp only
    split <;> rfl

lemma stw_wavelength [NeZero n] (B : FFTBackend n) (s : Wavefront n) (dz : ℝ) :
    (stw B s dz).wavelength = s.wavelength := by
  unfold stw
  split
  · rfl
  · dsimp only
    split <;> rfl

lemma wts_field_pos [NeZero n] (B : FFTBackend n) (s : Wavefront n) {dz : ℝ}
    (hdz : dz ≠ 0) (hpos : 0 < dz) :
    (wts B s dz).field = fun i j =>
      B.fwd (fun a b => s.field a b *
        quadPhasePhasor n ⟨dz, s.wavelength⟩ s.pixelscale a b) i j / (n : ℂ) := by
  simp only [wts]
  rw [if_neg hdz, if_pos hpos]
  rfl

lemma wts_field_neg [NeZero n] (B : FFTBackend n) (s : Wavefront n) {dz : ℝ}
    (hdz : dz ≠ 0) (hneg : ¬ 0 < dz) :
    (wts B s dz).field = fun i j =>
      B.inv (fun a b => s.field a b *
        quadPhasePhasor n ⟨dz, s.wavelength⟩ s.pixelscale a b) i j * (n : ℂ) := by
  simp only [wts]
  rw [if_neg hdz, if_neg hneg]
  rfl

lemma stw_field_pos [NeZero n] (B : FFTBackend n) (s : Wavefront n) {dz : ℝ}
    (hdz : dz ≠ 0) (hpos : 0 < dz) :
    (stw B s dz).field = fun i j =>
      (B.fwd s.field i j / (n : ℂ)) *
        quadPhasePhasor n ⟨dz, s.wavelength⟩
          (s.wavelength * |dz| / (n * s.pixelscale)) i j := by
  simp only [stw]
  rw [if_neg hdz, if_pos hpos]
  rfl

lemma stw_field_neg [NeZero n] (B : FFTBackend n) (s : Wavefront n) {dz : ℝ}
    (hdz : dz ≠ 0) (hneg : ¬ 0 < dz) :
    (stw B s dz).field = fun i j =>
      (B.inv s.field i j * (n : ℂ)) *
        quadPhasePhasor n ⟨dz, s.wavelength⟩
          (s.wavelength * |dz| / (n * s.pixelscale)) i j := by
  simp only [stw]
  rw [if_neg hdz, if_neg hneg]
  rfl

/-- Opposite-curvature quadratic phasors cancel:
`exp(i k r^2/(2 dz)) * exp(i k r^2/(2 (-dz))) = 1`. -/
lemma quadPhasePhasor_cancel (lam pix dz : ℝ) (i j : Fin n) :
    quadPhasePhasor n ⟨dz, lam⟩ pix i j * quadPhasePhasor n ⟨-dz, lam⟩ pix i j = 1 := by
  simp only [quadPhasePhasor]
  rw [← Complex.exp_add, ← Complex.exp_zero]
  congr 1
  by_cases hd : dz = 0
  · subst hd
    norm_num
  · have hd' : (dz : ℂ) ≠ 0 := Complex.ofReal_ne_zero.mpr hd
    push_cast
    field_simp
    ring

/-- C4 (amended): waist round trips.  With the sign-adjusted pairing
`wts(dz)` then `stw(-dz)` — under the external backend contract (forward
and inverse transforms undo each other and are linear) — both the pixel
scale and the field array return exactly to their pre-transform values,
for any nonzero `dz`, nonzero wavelength and nonzero pixel scale; the
same-sign pairing `stw(dz)` then `wts(dz)` restores the pixel scale
(the Fourier rescaling is an involution in `|dz|`) but not, in general,
the field (see the counterexample: two same-direction FFTs and two equal
quadratic phases do not cancel). -/
theorem c4_waist_round_trip_amended [NeZero n] (B : FFTBackend n)
    (hif : ∀ X, B.inv (B.fwd X) = X) (hfi : ∀ X, B.fwd (B.inv X) = X)
    (hlinI : ∀ (c : ℂ) (X : Fin n → Fin n → ℂ),
      B.inv (fun i j => c * X i j) = fun i j => c * B.inv X i j)
    (hlinF : ∀ (c : ℂ) (X : Fin n → Fin n → ℂ),
      B.fwd (fun i j => c * X i j) = fun i j => c * B.fwd X i j)
    (s : Wavefront n) (dz : ℝ) (hdz : dz ≠ 0) (hlam : s.wavelength ≠ 0)
    (_hpix : s.pixelscale ≠ 0) :
    (stw B (wts B s dz) (-dz)).pixelscale = s.pixelscale ∧
    (stw B (wts B s dz) (-dz)).field = s.field ∧
    (wts B (stw B s dz) dz).pixelscale = s.pixelscale := by
  have hnR : (n : ℝ) ≠ 0 := Nat.cast_ne_zero.mpr (NeZero.ne n)
  have hnC : (n : ℂ) ≠ 0 := Nat.cast_ne_zero.mpr (NeZero.ne n)
  have hdz' : -dz ≠ 0 := neg_ne_zero.mpr hdz
  have habs : |dz| ≠ 0 := abs_ne_zero.mpr hdz
  have hpix2 : s.wavelength * |dz| / (n * (s.wavelength * |dz| / (n * s.pixelscale)))
      = s.pixelscale := by
    field_simp
    ring
  refine ⟨?_, ?_, ?_⟩
  · rw [stw_pixelscale B _ hdz', wts_wavelength, wts_pixelscale B s hdz, abs_neg]
    exact hpix2
  · by_cases hpos : 0 < dz
    · rw [stw_field_neg B _ hdz' (by linarith), wts_wavelength,
        wts_pixelscale B s hdz, abs_neg, hpix2, wts_field_pos B s hdz hpos]
      have hdiv : (fun a b => B.fwd (fun a b => s.field a b *
          quadPhasePhasor n ⟨dz, s.wavelength⟩ s.pixelscale a b) a b / (n : ℂ))
          = fun a b => ((n : ℂ)⁻¹) * B.fwd (fun a b => s.field a b *
            quadPhasePhasor n ⟨dz, s.wavelength⟩ s.pixelscale a b) a b := by
        funext a b
        rw [div_eq_inv_mul]
      rw [hdiv, hlinI, hif]
      funext a b
      set q1 := quadPhasePhasor n ⟨dz, s.wavelength⟩ s.pixelscale a b with hq1
      set q2 := quadPhasePhasor n ⟨-dz, s.wavelength⟩ s.pixelscale a b with hq2
      have hc : q1 * q2 = 1 := quadPhasePhasor_cancel s.wavelength s.pixelscale dz a b
      show (n : ℂ)⁻¹ * (s.field a b * q1) * (n : ℂ) * q2 = s.field a b
      rw [show (n : ℂ)⁻¹ * (s.field a b * q1) * (n : ℂ) * q2
        = s.field a b * (q1 * q2) * ((n : ℂ)⁻¹ * (n : ℂ)) from by ring,
        hc, inv_mul_cancel₀ hnC, mul_one, mul_one]
    · have hneg : dz < 0 := lt_of_le_of_ne (not_lt.mp hpos) hdz
      rw [stw_field_pos B _ hdz' (by linarith), wts_wavelength,
        wts_pixelscale B s hdz, abs_neg, hpix2, wts_field_neg B s hdz hpos]
      have hmul : (fun a b => B.inv (fun a b => s.field a b *
          quadPhasePhasor n ⟨dz, s.wavelength⟩ s.pixelscale a b) a b * (n : ℂ))
          = fun a b => ((n : ℂ)) * B.inv (fun a b => s.field a b *
            quadPhasePhasor n ⟨dz, s.wavelength⟩ s.pixelscale a b) a b := by
        funext a b
        rw [mul_comm]
      rw [hmul, hlinF, hfi]
      funext a b
      set q1 := quadPhasePhasor n ⟨dz, s.wavelength⟩ s.pixelscale a b with hq1
      set q2 := quadPhasePhasor n ⟨-dz, s.wavelength⟩ s.pixelscale a b with hq2
      have hc : q1 * q2 = 1 := quadPhasePhasor_cancel s.wavelength s.pixelscale dz a b
      show (n : ℂ) * (s.field a b * q1) / (n : ℂ) * q2 = s.field a b
      rw [show (n : ℂ) * (s.field a b * q1) / (n : ℂ) * q2
        = s.field a b * (q1 * q2) * ((n : ℂ) * (n : ℂ)⁻¹) from by ring,
        hc, mul_inv_cancel₀ hnC, mul_one, mul_one]
  · rw [wts_pixelscale B _ hdz, stw_wavelength, stw_pixelscale B s hdz]
    exact hpix2

/-- Witness for C4 (amended) at the concrete 2x2 numpy backend, sample
wavefront and `dz = 1`. -/
theorem c4_waist_round_trip_amended_witness :
    (stw np2 (wts np2 sampleWF 1) (-1)).pixelscale = sampleWF.pixelscale ∧
    (stw np2 (wts np2 sampleWF 1) (-1)).field = sampleWF.field ∧
    (wts np2 (stw np2 sampleWF 1) 1).pixelscale = sampleWF.pixelscale :=
  c4_waist_round_trip_amended np2 np2_inv_fwd np2_fwd_inv np2_inv_lin np2_fwd_lin
    sampleWF 1 one_ne_zero (by norm_num [sampleWF, mkWavefront])
    (by norm_num [sampleWF, mkWavefront])

/-- C4 counterexample: `stw(dz)` followed by `wts(dz)` (same sign, as the
first reading of the claim states) does NOT return the field to its
pre-transform value.  On a 2x2 grid with wavelength 2, pixel scale 1 and
`dz = 1`, the pair applies two same-direction FFTs and two identical
quadratic phases `exp(i*pi*r^2/2)`; starting from the field concentrated
at index (1,1), the result is concentrated at (0,0): entry (0,0) comes
back 1 instead of 0 (the pixel scale does return to 1, per the amended
claim). -/
theorem c4_waist_round_trip_counterexample :
    (wts np2 (stw np2 { sampleWF with
        wavelength := 2
        field := fun i j => if i = 1 ∧ j = 1 then (1:ℂ) else 0 } 1) 1).field 0 0
      ≠ ({ sampleWF with
        wavelength := 2
        field := fun i j => if i = 1 ∧ j = 1 then (1:ℂ) else 0 } : Wavefront 2).field 0 0 := by
  set s4 : Wavefront 2 := { sampleWF with
    wavelength := 2
    field := fun i j => if i = 1 ∧ j = 1 then (1:ℂ) else 0 } with hs4
  have q00 : quadPhasePhasor 2 ⟨1, 2⟩ 1 0 0 * quadPhasePhasor 2 ⟨1, 2⟩ 1 0 0 = 1 := by
    simp only [quadPhasePhasor, Fin.val_zero]
    rw [← Complex.exp_add]
    convert Complex.exp_two_pi_mul_I using 2
    push_cast
    ring
  have q01 : quadPhasePhasor 2 ⟨1, 2⟩ 1 0 1 * quadPhasePhasor 2 ⟨1, 2⟩ 1 0 1 = -1 := by
    simp only [quadPhasePhasor, Fin.val_zero, Fin.val_one]
    rw [← Complex.exp_add]
    rw [show (-1 : ℂ) = Complex.exp (π * Complex.I) from Complex.exp_pi_mul_I.symm]
    congr 1
    push_cast
    ring
  have q10 : quadPhasePhasor 2 ⟨1, 2⟩ 1 1 0 * quadPhasePhasor 2 ⟨1, 2⟩ 1 1 0 = -1 := by
    simp only [quadPhasePhasor, Fin.val_zero, Fin.val_one]
    rw [← Complex.exp_add]
    rw [show (-1 : ℂ) = Complex.exp (π * Complex.I) from Complex.exp_pi_mul_I.symm]
    congr 1
    push_cast
    ring
  have q11 : quadPhasePhasor 2 ⟨1, 2⟩ 1 1 1 * quadPhasePhasor 2 ⟨1, 2⟩ 1 1 1 = 1 := by
    simp only [quadPhasePhasor, Fin.val_one]
    rw [← Complex.exp_add]
    convert Complex.exp_zero using 2
    push_cast
    ring
  have hw : (stw np2 s4 1).wavelength = 2 := by
    rw [stw_wavelength]
  have hp : (stw np2 s4 1).pixelscale = 1 := by
    rw [stw_pixelscale np2 s4 one_ne_zero,
      show s4.wavelength = 2 from rfl, show s4.pixelscale = 1 from rfl]
    norm_num
  have hf1 : (stw np2 s4 1).field = fun i j =>
      (np2fwd s4.field i j / 2) * quadPhasePhasor 2 ⟨1, 2⟩ 1 i j := by
    rw [stw_field_pos np2 s4 one_ne_zero one_pos,
      show s4.wavelength = (2:ℝ) from rfl, show s4.pixelscale = (1:ℝ) from rfl]
    funext i j
    norm_num
    exact Or.inl rfl
  have hL : (wts np2 (stw np2 s4 1) 1).field 0 0 = 1 := by
    rw [wts_field_pos np2 (stw np2 s4 1) one_ne_zero one_pos]
    simp only [hw, hp, hf1]
    simp only [np2, np2fwd, Fin.sum_univ_two, Fin.val_zero, Fin.val_one]
    simp only [mul_assoc, q00, q01, q10, q11]
    norm_num
  rw [hL, show s4.field 0 0 = 0 from rfl]
  exact one_ne_zero

end Fresnel
